import Mathlib

/-!
# Verification of the py-scale-codec decoding engine

Shallow embedding of `src/scalecodec/types.py` and `src/scalecodec/block.py`
(yeecoders/py-scale-codec).  Bytes are modelled as `Nat` values below 256; a
byte buffer is a `List Nat`.  A forward-only decoder is a function
`List Nat → Option (α × List Nat)` returning the decoded value and the
unconsumed suffix; `none` models a raised exception (`BufferUnderrun` unless
a richer error type is used).  Where the Python source makes a detour through
hex strings and back (`int(x.hex(), 16)`, comparison of one-byte strings such
as `'81'`), the model works on the byte value directly; the two agree for
genuine bytes (`< 256`).  Hex-string *results* (era, signatures, addresses,
call indices) are modelled as genuine Lean strings via `byteHex`/`bytesHex`.

The cursor type `ScaleBytes` of `scalecodec/base.py` is not part of the
sources; its primitives are modelled from the spec (each such definition
carries a `Modelled from the spec:` comment).  The blake2b digest is an
external collaborator (spec section 6); hashing claims are stated about the
exact byte sequence handed to the digest (the pre-image).
-/

namespace Scale

/-- Modelled from the spec: `get_next_bytes` of the missing
`scalecodec/base.py` ByteCursor (spec section 4.1): return the next `n` bytes
and advance the cursor; fail (`BufferUnderrun`) when fewer than `n` bytes
remain. -/
def get_next_bytes (n : Nat) (s : List Nat) : Option (List Nat × List Nat) :=
  if n ≤ s.length then some (s.take n, s.drop n) else none

/-- `int.from_bytes(bs, byteorder='little')`. -/
def fromLEBytes (bs : List Nat) : Nat :=
  bs.foldr (fun b acc => b + 256 * acc) 0

/-- `value.to_bytes(n, 'little')` (the value is assumed to fit, as at every
call site of the source). -/
def toLEBytes : Nat → Nat → List Nat
  | _, 0 => []
  | v, n + 1 => v % 256 :: toLEBytes (v / 256) n

/-- Lowercase hex digit, as produced by python `bytes.hex()`. -/
def hexDigit (n : Nat) : Char :=
  if n < 10 then Char.ofNat (48 + n) else Char.ofNat (87 + n)

/-- `bytes([b]).hex()`: two lowercase hex digits. -/
def byteHex (b : Nat) : String :=
  String.mk [hexDigit (b / 16), hexDigit (b % 16)]

/-- `bs.hex()`: lowercase hex, two digits per byte, no separator, no 0x. -/
def bytesHex (bs : List Nat) : String :=
  bs.foldl (fun acc b => acc ++ byteHex b) ""

/-! ## Compact integers (`types.py`, class `Compact` / `CompactU32`) -/

/-- State produced by `Compact.process_compact_bytes`: the computed
`compact_length` and the stored `compact_bytes`. -/
structure CompactState where
  compact_length : Nat
  compact_bytes : List Nat
deriving DecidableEq

/-- `Compact.process_compact_bytes` (types.py lines 30-51): read one byte,
derive the total compact length from `byte mod 4`, then store the payload.
Note the faithful quirk: for lengths 1, 2 and 4 the stored `compact_bytes`
include the first byte, while in the big-integer branch they are only the
continuation bytes (`get_next_bytes(compact_length - 1)` without the prefix
byte). -/
def process_compact_bytes (s : List Nat) : Option (CompactState × List Nat) :=
  match get_next_bytes 1 s with
  | none => none
  | some (compact_byte, s1) =>
    let b := compact_byte.headI
    let len : Nat :=
      if b % 4 = 0 then 1
      else if b % 4 = 1 then 2
      else if b % 4 = 2 then 4
      else 5 + (b - 3) / 4
    if len = 1 then some (⟨1, compact_byte⟩, s1)
    else if len = 2 ∨ len = 4 then
      match get_next_bytes (len - 1) s1 with
      | none => none
      | some (rest, s2) => some (⟨len, compact_byte ++ rest⟩, s2)
    else
      match get_next_bytes (len - 1) s1 with
      | none => none
      | some (rest, s2) => some (⟨len, rest⟩, s2)

/-- `CompactU32.process` (types.py lines 75-81): shift the small modes down
by two bits (`int(x / 4)`), return big-integer payloads unshifted. -/
def CompactU32.process (s : List Nat) : Option (Nat × List Nat) :=
  match process_compact_bytes s with
  | none => none
  | some (st, s1) =>
    if st.compact_length ≤ 4 then some (fromLEBytes st.compact_bytes / 4, s1)
    else some (fromLEBytes st.compact_bytes, s1)

/-- `Compact.process` with no sub-type (types.py lines 53-68, `else` branch):
the stored `compact_bytes` are returned as-is. -/
def Compact.processRaw (s : List Nat) : Option (List Nat × List Nat) :=
  match process_compact_bytes s with
  | none => none
  | some (st, s1) => some (st.compact_bytes, s1)

/-- `CompactU32.encode` (types.py lines 83-105).  `none` models the raised
`ValueError('{} out of range')`.  The big-integer branch searches byte
lengths `range(5, 68)`, i.e. 5..67 inclusive. -/
def CompactU32.encode (value : Nat) : Option (List Nat) :=
  if value ≤ 0x3F then some (toLEBytes (value <<< 2) 1)
  else if value ≤ 0x3FFF then some (toLEBytes ((value <<< 2) ||| 0b01) 2)
  else if value ≤ 0x3FFFFFFF then some (toLEBytes ((value <<< 2) ||| 0b10) 4)
  else
    match (List.range' 5 63).find?
        (fun L => decide (2 ^ (8 * (L - 1)) ≤ value) && decide (value < 2 ^ (8 * L))) with
    | some L => some (toLEBytes (((L - 4) <<< 2) ||| 0b11) 1 ++ toLEBytes value L)
    | none => none

/-- `decode(encode(v))`: encode, then decode the produced bytes. -/
def compactRoundTrip (v : Nat) : Option (Nat × List Nat) :=
  match CompactU32.encode v with
  | none => none
  | some enc => CompactU32.process enc

/-! ## Fixed-width primitives (`types.py`) -/

/-- `U8.process` (types.py lines 162-165, via `get_next_u8`). -/
def U8.process (s : List Nat) : Option (Nat × List Nat) :=
  match get_next_bytes 1 s with
  | none => none
  | some (bs, s1) => some (fromLEBytes bs, s1)

/-- `U32.process` (types.py lines 190-193): 4 bytes little-endian. -/
def U32.process (s : List Nat) : Option (Nat × List Nat) :=
  match get_next_bytes 4 s with
  | none => none
  | some (bs, s1) => some (fromLEBytes bs, s1)

/-- `U64.process` (types.py lines 204-207): 8 bytes little-endian. -/
def U64.process (s : List Nat) : Option (Nat × List Nat) :=
  match get_next_bytes 8 s with
  | none => none
  | some (bs, s1) => some (fromLEBytes bs, s1)

/-- `U128.process` (types.py lines 218-221): 16 bytes little-endian.
`Balance` is an alias of `U128`. -/
def U128.process (s : List Nat) : Option (Nat × List Nat) :=
  match get_next_bytes 16 s with
  | none => none
  | some (bs, s1) => some (fromLEBytes bs, s1)

/-- `Signature.process` (types.py lines 512-515): 64 raw bytes, hex. -/
def Signature.process (s : List Nat) : Option (String × List Nat) :=
  match get_next_bytes 64 s with
  | none => none
  | some (bs, s1) => some (bytesHex bs, s1)

/-- `H256.process` (types.py lines 224-227): 32 bytes as `'0x' + hex`.
`Hash` is an alias of `H256`. -/
def H256.process (s : List Nat) : Option (String × List Nat) :=
  match get_next_bytes 32 s with
  | none => none
  | some (bs, s1) => some ("0x" ++ bytesHex bs, s1)

/-- `Compact.process` with sub-type `U64` (`Compact<U64>`, types.py lines
53-68): the compact payload bytes are re-decoded with `U64` on a fresh
cursor; small modes (`compact_length <= 4`) are shifted down by two bits. -/
def Compact.processSubU64 (s : List Nat) : Option (Nat × List Nat) :=
  match process_compact_bytes s with
  | none => none
  | some (st, s1) =>
    match U64.process st.compact_bytes with
    | none => none
    | some (v, _) =>
      if st.compact_length ≤ 4 then some (v / 4, s1) else some (v, s1)

/-- `Compact.process` with sub-type `Balance` = `U128` (`Compact<Balance>`),
same shape as `Compact.processSubU64`. -/
def Compact.processSubU128 (s : List Nat) : Option (Nat × List Nat) :=
  match process_compact_bytes s with
  | none => none
  | some (st, s1) =>
    match U128.process st.compact_bytes with
    | none => none
    | some (v, _) =>
      if st.compact_length ≤ 4 then some (v / 4, s1) else some (v, s1)

/-! ## Era (`types.py`, class `Era`, lines 305-313) -/

/-- `Era.process`: one byte, hex; `'00'` is returned alone, any other first
byte is followed by exactly one more byte and the two hex strings are
concatenated. -/
def Era.process (s : List Nat) : Option (String × List Nat) :=
  match get_next_bytes 1 s with
  | none => none
  | some (bs, s1) =>
    let option_byte := bytesHex bs
    if option_byte = "00" then some (option_byte, s1)
    else
      match get_next_bytes 1 s1 with
      | none => none
      | some (bs2, s2) => some (option_byte ++ bytesHex bs2, s2)

/-! ## Option (`types.py`, class `Option`, lines 108-115) -/

/-- `Option.process`: one presence byte; with a declared sub-type and a
non-zero byte the sub-type is decoded next, otherwise the value is null.
The sub-type decoder is a parameter (it is resolved through the registry of
the missing `base.py`). -/
def Option.process {α : Type} (declaredSub : Bool)
    (sub : List Nat → Option (α × List Nat)) (s : List Nat) :
    Option (Option α × List Nat) :=
  match get_next_bytes 1 s with
  | none => none
  | some (option_byte, s1) =>
    if declaredSub ∧ option_byte ≠ [0] then
      match sub s1 with
      | none => none
      | some (v, s2) => some (some v, s2)
    else some (none, s1)

/-! ## Bytes / Vec<u8> (`types.py`, class `Bytes`, lines 118-129) -/

/-- Strict UTF-8 decoding as performed by python `bytes.decode()`: returns
the code points, or `none` on any malformed sequence (invalid lead byte,
truncated sequence, bad continuation byte, overlong form, surrogate, or a
value above U+10FFFF). -/
def utf8Decode : List Nat → Option (List Nat)
  | [] => some []
  | b :: rest =>
    if b ≤ 0x7F then
      match utf8Decode rest with
      | none => none
      | some t => some (b :: t)
    else if 0xC2 ≤ b ∧ b ≤ 0xDF then
      match rest with
      | [] => none
      | c :: r =>
        if 0x80 ≤ c ∧ c ≤ 0xBF then
          match utf8Decode r with
          | none => none
          | some t => some (((b - 0xC0) * 0x40 + (c - 0x80)) :: t)
        else none
    else if 0xE0 ≤ b ∧ b ≤ 0xEF then
      match rest with
      | c :: d :: r =>
        let lo := if b = 0xE0 then 0xA0 else 0x80
        let hi := if b = 0xED then 0x9F else 0xBF
        if lo ≤ c ∧ c ≤ hi ∧ 0x80 ≤ d ∧ d ≤ 0xBF then
          match utf8Decode r with
          | none => none
          | some t =>
            some (((b - 0xE0) * 0x1000 + (c - 0x80) * 0x40 + (d - 0x80)) :: t)
        else none
      | _ => none
    else if 0xF0 ≤ b ∧ b ≤ 0xF4 then
      match rest with
      | c :: d :: e :: r =>
        let lo := if b = 0xF0 then 0x90 else 0x80
        let hi := if b = 0xF4 then 0x8F else 0xBF
        if lo ≤ c ∧ c ≤ hi ∧ 0x80 ≤ d ∧ d ≤ 0xBF ∧ 0x80 ≤ e ∧ e ≤ 0xBF then
          match utf8Decode r with
          | none => none
          | some t =>
            some (((b - 0xF0) * 0x40000 + (c - 0x80) * 0x1000 +
              (d - 0x80) * 0x40 + (e - 0x80)) :: t)
        else none
      | _ => none
    else none

/-- Result of `Bytes.process`: decoded text (as code points) on UTF-8
success, otherwise the plain lowercase hex string of the raw bytes. -/
inductive BytesResult where
  | text (codepoints : List Nat)
  | hex (s : String)
deriving DecidableEq

/-- `Bytes.process` (types.py lines 118-129): compact length prefix, that
many raw bytes, `value.decode()` with fallback to `value.hex()` (note: no
`'0x'` in front). -/
def Bytes.process (s : List Nat) : Option (BytesResult × List Nat) :=
  match CompactU32.process s with
  | none => none
  | some (length, s1) =>
    match get_next_bytes length s1 with
    | none => none
    | some (value, s2) =>
      match utf8Decode value with
      | some cps => some (.text cps, s2)
      | none => some (.hex (bytesHex value), s2)

/-! ## Address (`types.py`, class `Address`, lines 574-606) -/

/-- The attributes set by `Address.process`; the python return value is
`account_id` in the `0xff` branch and `account_index` otherwise.
Fields in order: `account_length`, `account_id`, `account_index`,
`account_idx`. -/
structure AddressResult where
  account_length : String
  account_id : Option String
  account_index : Option String
  account_idx : Option Nat
deriving DecidableEq

/-- `Address.process`: one marker byte; `0xff` is followed by a 32-byte
account id, `0xfc`/`0xfd`/`0xfe` by a 2/4/8-byte little-endian account
index, and any other marker is itself the one-byte account index. -/
def Address.process (s : List Nat) : Option (AddressResult × List Nat) :=
  match get_next_bytes 1 s with
  | none => none
  | some (account_length, s1) =>
    let al := account_length.headI
    if al = 0xff then
      match get_next_bytes 32 s1 with
      | none => none
      | some (bs, s2) =>
        some (⟨byteHex al, some (bytesHex bs), none, none⟩, s2)
    else
      let read : Option (List Nat × List Nat) :=
        if al = 0xfc then get_next_bytes 2 s1
        else if al = 0xfd then get_next_bytes 4 s1
        else if al = 0xfe then get_next_bytes 8 s1
        else some (account_length, s1)
      match read with
      | none => none
      | some (account_index, s2) =>
        some (⟨byteHex al, none, some (bytesHex account_index),
          some (fromLEBytes account_index)⟩, s2)

/-! ## Enum (`types.py`, class `Enum`, lines 613-643) -/

/-- Errors raised by `Enum.process`: buffer underrun, the `ValueError` of
`int()` on a string containing hex letters, and the `ValueError` raised on
`IndexError` ("Index not present in Enum value list / type mapping"). -/
inductive EnumErr where
  | bufferUnderrun
  | invalidIndexLiteral
  | variantIndexOutOfRange (i : Nat)
deriving DecidableEq

/-- `int(self.get_next_bytes(1).hex())` (types.py line 630): the two
lowercase hex digits of the byte parsed back as a DECIMAL literal.  A digit
`a`-`f` makes `int()` raise `ValueError` (`none`); otherwise the result is
the decimal reading, e.g. byte `0x10` gives 10, not 16. -/
def decimalOfHexByte (b : Nat) : Option Nat :=
  if b / 16 ≤ 9 ∧ b % 16 ≤ 9 then some (10 * (b / 16) + b % 16) else none

/-- Result of `Enum.process`: a plain label in value-list mode, or the
single-field struct `{field_name: value}` in struct-list mode. -/
inductive EnumResult (α : Type) where
  | label (s : String)
  | single (field_name : String) (v : α)
deriving DecidableEq

/-- `Enum.process` (types.py lines 629-643).  `type_mapping` (when present,
python truthiness) takes priority: the selected `(field_name, field_type)`
pair is decoded as a single-field struct; otherwise the index selects a
label from `value_list`.  Field decoders are parameters (registry of the
missing `base.py`). -/
def Enum.process {α : Type}
    (type_mapping : Option (List (String × (List Nat → Option (α × List Nat)))))
    (value_list : List String) (s : List Nat) :
    Except EnumErr (EnumResult α × List Nat) :=
  match get_next_bytes 1 s with
  | none => .error .bufferUnderrun
  | some (bs, s1) =>
    match decimalOfHexByte bs.headI with
    | none => .error .invalidIndexLiteral
    | some index =>
      match type_mapping with
      | some tm =>
        match tm.get? index with
        | none => .error (.variantIndexOutOfRange index)
        | some (field_name, field_type) =>
          match field_type s1 with
          | none => .error .bufferUnderrun
          | some (v, s2) => .ok (.single field_name v, s2)
      | none =>
        match value_list.get? index with
        | none => .error (.variantIndexOutOfRange index)
        | some lab => .ok (.label lab, s1)

/-! ## The ScaleBytes cursor used by `ExtrinsicsDecoder` -/

/-- Modelled from the spec: the `ScaleBytes` object of the missing
`scalecodec/base.py` (spec sections 3 and 4.1) — an immutable byte sequence
(`data`, python `self.data.data`) with a mutable read offset.  `reset()`
rewinds the offset to 0 and `self.data.length` is the total byte count. -/
structure SB where
  data : List Nat
  offset : Nat
deriving DecidableEq

/-- Modelled from the spec: the unread tail of the cursor
(`get_remaining_length` is its length). -/
def SB.remaining (s : SB) : List Nat := s.data.drop s.offset

/-- Modelled from the spec: `get_next_bytes` against the shared cursor. -/
def get_next_bytes_sb (n : Nat) (s : SB) : Option (List Nat × SB) :=
  if s.offset + n ≤ s.data.length then
    some ((s.data.drop s.offset).take n, ⟨s.data, s.offset + n⟩)
  else none

/-- Run a suffix-style decoder against the shared cursor (this is what
`process_type` does: the sub-decoder consumes from the same buffer). -/
def liftSB {α : Type} (f : List Nat → Option (α × List Nat)) (s : SB) :
    Option (α × SB) :=
  match f s.remaining with
  | none => none
  | some (v, rest) => some (v, ⟨s.data, s.data.length - rest.length⟩)

/-! ## ExtrinsicsDecoder (`block.py`, lines 24-194) -/

/-- Errors of the extrinsic decode: buffer underrun, the
`NotImplementedError('Extrinsics version ... is not implemented')` (spec
name `UnsupportedExtrinsicVersion`), a failure inside the metadata-driven
parameter decoding (unknown call index or argument decode failure), and the
`ValueError` a failing `CompactU32.encode` would raise inside
`generate_hash`. -/
inductive ExErr where
  | bufferUnderrun
  | unsupportedVersion (v : Nat)
  | metadataFailure
  | valueOutOfRange
deriving DecidableEq

/-- The fields of the result dict built by `ExtrinsicsDecoder.process`
(block.py lines 165-194).  `version_info` is kept as the byte value (python
stores its two-digit hex string); `extrinsic_hash` holds the blake2b
*pre-image*, the digest itself being an external collaborator.  Fields in
order: `extrinsic_length`, `version_info`, `contains_transaction`,
`account_length`, `account_id`, `account_index`, `account_idx`,
`signature`, `nonce`, `era`, `tip`, `extrinsic_hash`, `call_index`. -/
structure ExtrinsicResult where
  extrinsic_length : Option Nat
  version_info : Nat
  contains_transaction : Bool
  account_length : Option String
  account_id : Option String
  account_index : Option String
  account_idx : Option Nat
  signature : Option String
  nonce : Option Nat
  era : Option String
  tip : Option Nat
  extrinsic_hash : Option (List Nat)
  call_index : Option String
deriving DecidableEq

/-- `ExtrinsicsDecoder.generate_hash` (block.py lines 57-70), returning the
blake2b pre-image instead of the digest.  With a (python-truthy, i.e.
non-`None` and non-zero) `extrinsic_length` the WHOLE buffer `data.data` is
hashed; otherwise the total byte count is compact-encoded and prepended. -/
def ExtrinsicsDecoder.generate_hash (contains_transaction : Bool)
    (extrinsic_length : Option Nat) (data : List Nat) :
    Except ExErr (Option (List Nat)) :=
  if contains_transaction then
    if extrinsic_length.getD 0 ≠ 0 then .ok (some data)
    else
      match CompactU32.encode data.length with
      | some lenBytes => .ok (some (lenBytes ++ data))
      | none => .error .valueOutOfRange
  else .ok none

/-- Legacy-length fallback (block.py lines 78-81): when the decoded compact
length does not match the remaining byte count it is discarded and the
cursor is rewound to offset 0. -/
def lengthFallback (s0 : SB) (n : Nat) (s1 : SB) : Option Nat × SB :=
  if n ≠ s1.remaining.length then (none, ⟨s0.data, 0⟩) else (some n, s1)

/-- Block.py lines 76-85: compact length, legacy fallback, then the version
byte.  Returns `(extrinsic_length, version byte, cursor after)`. -/
def readToVersion (s0 : SB) : Option (Option Nat × Nat × SB) :=
  match liftSB CompactU32.process s0 with
  | none => none
  | some (n, s1) =>
    let p := lengthFallback s0 n s1
    match get_next_bytes_sb 1 p.2 with
    | none => none
    | some (vbs, s2) => some (p.1, vbs.headI, s2)

/-- The signature block of a v1 extrinsic (block.py lines 89-98):
address, signature, `Compact<u32>` nonce, era.  Fields in that order. -/
structure SignedV1 where
  address : AddressResult
  signature : String
  nonce : Nat
  era : String
deriving DecidableEq

def signedFieldsV1 (s : SB) : Option (SignedV1 × SB) :=
  match liftSB Address.process s with
  | none => none
  | some (a, s1) =>
    match liftSB Signature.process s1 with
    | none => none
    | some (sig, s2) =>
      match liftSB CompactU32.process s2 with
      | none => none
      | some (n, s3) =>
        match liftSB Era.process s3 with
        | none => none
        | some (e, s4) => some (⟨a, sig, n, e⟩, s4)

/-- The signature block of a v2/v3 extrinsic (block.py lines 104-115 and
121-132): address, signature, era, `Compact<U64>` nonce,
`Compact<Balance>` tip.  Fields in that order. -/
structure SignedV23 where
  address : AddressResult
  signature : String
  era : String
  nonce : Nat
  tip : Nat
deriving DecidableEq

def signedFieldsV23 (s : SB) : Option (SignedV23 × SB) :=
  match liftSB Address.process s with
  | none => none
  | some (a, s1) =>
    match liftSB Signature.process s1 with
    | none => none
    | some (sig, s2) =>
      match liftSB Era.process s2 with
      | none => none
      | some (e, s3) =>
        match liftSB Compact.processSubU64 s3 with
        | none => none
        | some (n, s4) =>
          match liftSB Compact.processSubU128 s4 with
          | none => none
          | some (t, s5) => some (⟨a, sig, e, n, t⟩, s5)

/-- `self.call_index = self.get_next_bytes(2).hex()` (block.py line 100 /
117 / 134). -/
def readCallIndex (s : SB) : Option (String × SB) :=
  match get_next_bytes_sb 2 s with
  | none => none
  | some (bs, s1) => some (bytesHex bs, s1)

/-- Common tail of every version branch: 2-byte call index, then the
metadata-driven parameter decoding (block.py lines 139-163) abstracted as
`decodeParams` (the metadata tables and the per-argument types are external
collaborators), then the result dict. -/
def finishBranch (decodeParams : String → SB → Option SB)
    (elen : Option Nat) (vb : Nat) (ct : Bool) (addr : Option AddressResult)
    (sig : Option String) (nonce : Option Nat) (era : Option String)
    (tip : Option Nat) (hash : Option (List Nat)) (s : SB) :
    Except ExErr ExtrinsicResult :=
  match readCallIndex s with
  | none => .error .bufferUnderrun
  | some (ci, s1) =>
    match decodeParams ci s1 with
    | none => .error .metadataFailure
    | some _ =>
      .ok ⟨elen, vb, ct, addr.map (fun a => a.account_length),
        (addr.map (fun a => a.account_id)).getD none,
        (addr.map (fun a => a.account_index)).getD none,
        (addr.map (fun a => a.account_idx)).getD none,
        sig, nonce, era, tip, hash, some ci⟩

/-- The `'01'`/`'81'` branch (block.py lines 87-100). -/
def branchV1 (decodeParams : String → SB → Option SB) (elen : Option Nat)
    (vb : Nat) (ct : Bool) (s : SB) : Except ExErr ExtrinsicResult :=
  if ct then
    match signedFieldsV1 s with
    | none => .error .bufferUnderrun
    | some (sf, s1) =>
      match ExtrinsicsDecoder.generate_hash ct elen s1.data with
      | .error e => .error e
      | .ok h =>
        finishBranch decodeParams elen vb ct (some sf.address)
          (some sf.signature) (some sf.nonce) (some sf.era) none h s1
  else finishBranch decodeParams elen vb ct none none none none none none s

/-- The `'02'`/`'82'` and (identical) `'03'`/`'83'` branches (block.py lines
102-134). -/
def branchV23 (decodeParams : String → SB → Option SB) (elen : Option Nat)
    (vb : Nat) (ct : Bool) (s : SB) : Except ExErr ExtrinsicResult :=
  if ct then
    match signedFieldsV23 s with
    | none => .error .bufferUnderrun
    | some (sf, s1) =>
      match ExtrinsicsDecoder.generate_hash ct elen s1.data with
      | .error e => .error e
      | .ok h =>
        finishBranch decodeParams elen vb ct (some sf.address)
          (some sf.signature) (some sf.nonce) (some sf.era) (some sf.tip) h s1
  else finishBranch decodeParams elen vb ct none none none none none none s

/-- `ExtrinsicsDecoder.process` (block.py lines 72-194).
`contains_transaction = int(version_info, 16) >= 80` compares the BYTE VALUE
with the decimal literal 80 (block.py line 85); on the version bytes the
dispatch accepts this coincides with testing bit 0x80. -/
def ExtrinsicsDecoder.process (decodeParams : String → SB → Option SB)
    (s0 : SB) : Except ExErr ExtrinsicResult :=
  match readToVersion s0 with
  | none => .error .bufferUnderrun
  | some (elen, vb, s2) =>
    let ct := decide (80 ≤ vb)
    if vb = 0x01 ∨ vb = 0x81 then branchV1 decodeParams elen vb ct s2
    else if vb = 0x02 ∨ vb = 0x82 then branchV23 decodeParams elen vb ct s2
    else if vb = 0x03 ∨ vb = 0x83 then branchV23 decodeParams elen vb ct s2
    else .error (.unsupportedVersion vb)

/-! ## EventRecord (`block.py`, lines 232-286) -/

/-- Run the metadata-resolved argument decoders in order against the
buffer (block.py lines 265-272; the decoded values themselves are not
tracked, only the byte consumption matters to the claims). -/
def runDecoders (ds : List (List Nat → Option (List Nat))) (s : List Nat) :
    Option (List Nat) :=
  match ds with
  | [] => some s
  | d :: rest =>
    match d s with
    | none => none
    | some s1 => runDecoders rest s1

/-- Decode `n` repetitions of `f` (the loop of `Vec.process`). -/
def decodeN {α : Type} (f : List Nat → Option (α × List Nat)) :
    Nat → List Nat → Option (List α × List Nat)
  | 0, s => some ([], s)
  | n + 1, s =>
    match f s with
    | none => none
    | some (a, s1) =>
      match decodeN f n s1 with
      | none => none
      | some (as, s2) => some (a :: as, s2)

/-- `Vec<Hash>` decode (`Vec.process`, types.py lines 549-564, with
sub-type `Hash` = `H256`): compact element count then that many hashes. -/
def VecHash.process (s : List Nat) : Option (List String × List Nat) :=
  match CompactU32.process s with
  | none => none
  | some (element_count, s1) => decodeN H256.process element_count s1

/-- `if self.metadata.version and self.metadata.version.index >= 5`
(block.py line 275); `none` models a falsy `metadata.version`. -/
def versionGate (v : Option Nat) : Bool :=
  match v with
  | some n => decide (5 ≤ n)
  | none => false

/-- The fields of the dict returned by `EventRecord.process` that the claims
are about.  Fields in order: `phase`, `extrinsic_idx`, `type`, `topics`. -/
structure EventRecordResult where
  phase : Nat
  extrinsic_idx : Option Nat
  type : String
  topics : List String
deriving DecidableEq

/-- Block.py lines 258-286: 2-byte event type index, metadata lookup
(`event_index[self.type]`, `none` models `UnknownEvent`), the argument
decoders, and the version-gated trailing `Vec<Hash>` topics.  The metadata
collaborator is the parameter `lookup`: the argument decoders of the event
at that type index. -/
def EventRecord.afterPhase
    (lookup : String → Option (List (List Nat → Option (List Nat))))
    (mdVersion : Option Nat) (phase : Nat) (idx : Option Nat) (s : List Nat) :
    Option (EventRecordResult × List Nat) :=
  match get_next_bytes 2 s with
  | none => none
  | some (tb, s1) =>
    match lookup (bytesHex tb) with
    | none => none
    | some argDecoders =>
      match runDecoders argDecoders s1 with
      | none => none
      | some s2 =>
        if versionGate mdVersion then
          match VecHash.process s2 with
          | none => none
          | some (topics, s3) => some (⟨phase, idx, bytesHex tb, topics⟩, s3)
        else some (⟨phase, idx, bytesHex tb, []⟩, s2)

/-- `EventRecord.process` (block.py lines 250-286): 1-byte phase, a 4-byte
`U32` extrinsic index exactly when the phase byte is 0, then the rest. -/
def EventRecord.process
    (lookup : String → Option (List (List Nat → Option (List Nat))))
    (mdVersion : Option Nat) (s : List Nat) :
    Option (EventRecordResult × List Nat) :=
  match get_next_bytes 1 s with
  | none => none
  | some (pb, s1) =>
    let phase := pb.headI
    if phase = 0 then
      match U32.process s1 with
      | none => none
      | some (i, s2) => EventRecord.afterPhase lookup mdVersion phase (some i) s2
    else EventRecord.afterPhase lookup mdVersion phase none s1

/-! ## Concrete inputs used by the claim theorems -/

/-- A value list with 17 labels; a variant index of 16 selects `"Q"`. -/
def enumQLabels : List String :=
  ["A", "B", "C", "D", "E", "F", "G", "H", "I", "J", "K", "L", "M", "N", "O",
   "P", "Q"]

/-- A length-prefixed v1 signed extrinsic: compact length 70 (`[0x19, 0x01]`),
version byte `0x81`, one-byte address `0x00`, a 64-byte signature, compact
nonce `0x00`, era `0x00` and call index `0xabcd`. -/
def c4input : List Nat :=
  [0x19, 0x01] ++ [0x81, 0x00] ++ List.replicate 64 7 ++ [0x00, 0x00, 0xAB, 0xCD]

/-! # Theorems

General helper lemmas first, then one theorem (plus witness or
counterexample) per claim.
-/

deriving instance DecidableEq for Except

theorem bytesHex_singleton (b : Nat) : bytesHex [b] = byteHex b := by
  show "" ++ byteHex b = byteHex b
  exact String.empty_append (byteHex b)

set_option maxRecDepth 4096 in
theorem byteHex_ne_doublezero : ∀ b, b < 256 → b ≠ 0 → byteHex b ≠ "00" := by
  decide

set_option exponentiation.threshold 600 in
/-- **C1** (status: code_bug evidence).  `decode(encode(v)) = v` holds for
eight of the nine listed values, but `CompactU32.encode 1073741824` (2^30)
fails: the big-integer search starts at byte length 5, so no length in
5..67 covers the window `[2^30, 2^32)`.  The decoder itself accepts the
intended 4-byte big-integer form `[0x03, 0, 0, 0, 0x40]`, showing the
encoder slip.  Values beyond the largest representable length
(e.g. `2^536`) fail as the claim states. -/
theorem C1_compact_roundtrip_gap :
    compactRoundTrip 0 = some (0, []) ∧
    compactRoundTrip 63 = some (63, []) ∧
    compactRoundTrip 64 = some (64, []) ∧
    compactRoundTrip 16383 = some (16383, []) ∧
    compactRoundTrip 16384 = some (16384, []) ∧
    compactRoundTrip 1073741823 = some (1073741823, []) ∧
    compactRoundTrip (2 ^ 64 - 1) = some (2 ^ 64 - 1, []) ∧
    compactRoundTrip (2 ^ 300) = some (2 ^ 300, []) ∧
    CompactU32.encode 1073741824 = none ∧
    CompactU32.process [3, 0, 0, 0, 64] = some (1073741824, []) ∧
    CompactU32.encode (2 ^ 536) = none := by
  decide

/-- **C2** (counterexample).  The claim that in every mode the already-read
first byte together with its continuation bytes is the stored compact
payload fails in mode 3: on `[7, 1, 2, 3, 4, 5]` (mode byte 7, total
length 6) the stored payload is only the five continuation bytes. -/
theorem C2_mode3_payload_refuted :
    Compact.processRaw [7, 1, 2, 3, 4, 5] ≠ some ([7, 1, 2, 3, 4, 5], []) ∧
    Compact.processRaw [7, 1, 2, 3, 4, 5] = some ([1, 2, 3, 4, 5], []) := by
  decide

theorem process_compact_bytes_mode0 (b : Nat) (rest : List Nat)
    (h : b % 4 = 0) :
    process_compact_bytes (b :: rest) = some (⟨1, [b]⟩, rest) := by
  simp [process_compact_bytes, get_next_bytes, h]

theorem process_compact_bytes_mode1 (b : Nat) (rest : List Nat)
    (h : b % 4 = 1) (hr : 1 ≤ rest.length) :
    process_compact_bytes (b :: rest) =
      some (⟨2, b :: rest.take 1⟩, rest.drop 1) := by
  simp [process_compact_bytes, get_next_bytes, h, hr]

theorem process_compact_bytes_mode2 (b : Nat) (rest : List Nat)
    (h : b % 4 = 2) (hr : 3 ≤ rest.length) :
    process_compact_bytes (b :: rest) =
      some (⟨4, b :: rest.take 3⟩, rest.drop 3) := by
  simp [process_compact_bytes, get_next_bytes, h, hr]

theorem process_compact_bytes_mode3 (b : Nat) (rest : List Nat)
    (h : b % 4 = 3) (hr : 4 + (b - 3) / 4 ≤ rest.length) :
    process_compact_bytes (b :: rest) =
      some (⟨5 + (b - 3) / 4, rest.take (4 + (b - 3) / 4)⟩,
        rest.drop (4 + (b - 3) / 4)) := by
  have h1 : ¬(5 + (b - 3) / 4 = 1) := by omega
  have h2 : ¬(5 + (b - 3) / 4 = 2 ∨ 5 + (b - 3) / 4 = 4) := by omega
  have h3 : 5 + (b - 3) / 4 - 1 = 4 + (b - 3) / 4 := by omega
  simp [process_compact_bytes, get_next_bytes, h, h1, h2, h3, hr]

/-- **C2** (amended).  Decode behavior mode by mode: mode 0 consumes 1 byte
(value `b / 4`), mode 1 consumes 2 (value = u16-le of both bytes, shifted),
mode 2 consumes 4 (u32-le shifted), mode 3 consumes `5 + (b - 3) div 4`
bytes in total and the continuation bytes give the unshifted little-endian
big integer.  In modes 0-2 the stored payload (returned raw when no
sub-type is supplied) includes the first byte; in mode 3 it consists of the
continuation bytes ONLY — the prefix byte is excluded. -/
theorem C2_decode_modes (b : Nat) (rest : List Nat) :
    (b % 4 = 0 →
      CompactU32.process (b :: rest) = some (b / 4, rest) ∧
      Compact.processRaw (b :: rest) = some ([b], rest)) ∧
    (b % 4 = 1 → 1 ≤ rest.length →
      CompactU32.process (b :: rest) =
        some (fromLEBytes (b :: rest.take 1) / 4, rest.drop 1) ∧
      Compact.processRaw (b :: rest) = some (b :: rest.take 1, rest.drop 1)) ∧
    (b % 4 = 2 → 3 ≤ rest.length →
      CompactU32.process (b :: rest) =
        some (fromLEBytes (b :: rest.take 3) / 4, rest.drop 3) ∧
      Compact.processRaw (b :: rest) = some (b :: rest.take 3, rest.drop 3)) ∧
    (b % 4 = 3 → 4 + (b - 3) / 4 ≤ rest.length →
      CompactU32.process (b :: rest) =
        some (fromLEBytes (rest.take (4 + (b - 3) / 4)),
          rest.drop (4 + (b - 3) / 4)) ∧
      Compact.processRaw (b :: rest) =
        some (rest.take (4 + (b - 3) / 4), rest.drop (4 + (b - 3) / 4))) := by
  refine ⟨fun h => ?_, fun h hr => ?_, fun h hr => ?_, fun h hr => ?_⟩
  · rw [CompactU32.process, Compact.processRaw, process_compact_bytes_mode0 b rest h]
    simp [fromLEBytes]
  · rw [CompactU32.process, Compact.processRaw, process_compact_bytes_mode1 b rest h hr]
    simp
  · rw [CompactU32.process, Compact.processRaw, process_compact_bytes_mode2 b rest h hr]
    simp
  · rw [CompactU32.process, Compact.processRaw, process_compact_bytes_mode3 b rest h hr]
    have h4 : ¬(5 + (b - 3) / 4 ≤ 4) := by omega
    simp [h4]

/-- Witness for `C2_decode_modes`: one instance of every mode, including
the mode-3 instance showing the stored payload without the prefix byte. -/
theorem C2_decode_modes_witness :
    CompactU32.process [8] = some (2, []) ∧
    CompactU32.process [1, 1] = some (64, []) ∧
    CompactU32.process [2, 0, 1, 0] = some (16384, []) ∧
    Compact.processRaw [7, 11, 12, 13, 14, 15] = some ([11, 12, 13, 14, 15], []) := by
  refine ⟨?_, ?_, ?_, ?_⟩
  · exact (((C2_decode_modes 8 []).1 (by decide)).1).trans (by decide)
  · exact (((C2_decode_modes 1 [1]).2.1 (by decide) (by decide)).1).trans (by decide)
  · exact (((C2_decode_modes 2 [0, 1, 0]).2.2.1 (by decide) (by decide)).1).trans (by decide)
  · exact (((C2_decode_modes 7 [11, 12, 13, 14, 15]).2.2.2 (by decide) (by decide)).2).trans (by decide)

/-- **C5** (status: code_bug evidence).  The selector byte is NOT the
variant index: `int(self.get_next_bytes(1).hex())` parses the hex digits as
a decimal literal.  Byte `0x10` therefore yields index 10 (label `"K"` in a
17-label list) instead of 16 (`"Q"`), and byte `0x0a` raises `ValueError`
even though index 10 is in range.  For selector bytes 0x00-0x09 the claim's
behavior does hold: index 0 on `['A','B']` yields `'A'`, index 2 fails with
the out-of-range error, and struct-list mode decodes exactly the selected
single field. -/
theorem C5_enum_selector_decimal :
    @Enum.process Unit none enumQLabels [16] = .ok (.label "K", []) ∧
    enumQLabels.get? 16 = some "Q" ∧
    @Enum.process Unit none enumQLabels [10] = .error .invalidIndexLiteral ∧
    @Enum.process Unit none ["A", "B"] [0] = .ok (.label "A", []) ∧
    @Enum.process Unit none ["A", "B"] [2] = .error (.variantIndexOutOfRange 2) ∧
    Enum.process (some [("arg", U8.process)]) [] [0, 42] =
      .ok (.single "arg" 42, []) := by
  decide

/-- **C6** (confirmed).  The four-way `Address.process` branch: marker
`0xff` is followed by exactly 32 bytes returned as the hex account id with
`account_length = "ff"`; markers `0xfc`/`0xfd`/`0xfe` are followed by
exactly 2/4/8 bytes returned as hex (`account_index`) and as the
little-endian integer (`account_idx`); any other marker consumes nothing
further and is itself the short-form index. -/
theorem C6_address_branches (m : Nat) (rest : List Nat) :
    (m = 0xff → 32 ≤ rest.length →
      Address.process (m :: rest) =
        some (⟨"ff", some (bytesHex (rest.take 32)), none, none⟩, rest.drop 32)) ∧
    (m = 0xfc → 2 ≤ rest.length →
      Address.process (m :: rest) =
        some (⟨"fc", none, some (bytesHex (rest.take 2)),
          some (fromLEBytes (rest.take 2))⟩, rest.drop 2)) ∧
    (m = 0xfd → 4 ≤ rest.length →
      Address.process (m :: rest) =
        some (⟨"fd", none, some (bytesHex (rest.take 4)),
          some (fromLEBytes (rest.take 4))⟩, rest.drop 4)) ∧
    (m = 0xfe → 8 ≤ rest.length →
      Address.process (m :: rest) =
        some (⟨"fe", none, some (bytesHex (rest.take 8)),
          some (fromLEBytes (rest.take 8))⟩, rest.drop 8)) ∧
    (m ≠ 0xff → m ≠ 0xfc → m ≠ 0xfd → m ≠ 0xfe →
      Address.process (m :: rest) =
        some (⟨byteHex m, none, some (byteHex m), some m⟩, rest)) := by
  refine ⟨fun h hr => ?_, fun h hr => ?_, fun h hr => ?_, fun h hr => ?_,
    fun h1 h2 h3 h4 => ?_⟩
  · subst h
    simp [Address.process, get_next_bytes, hr,
      show byteHex 255 = "ff" from by decide]
  · subst h
    simp [Address.process, get_next_bytes, hr,
      show byteHex 252 = "fc" from by decide]
  · subst h
    simp [Address.process, get_next_bytes, hr,
      show byteHex 253 = "fd" from by decide]
  · subst h
    simp [Address.process, get_next_bytes, hr,
      show byteHex 254 = "fe" from by decide]
  · simp [Address.process, get_next_bytes, h1, h2, h3, h4, bytesHex_singleton,
      fromLEBytes]

/-- Witness for `C6_address_branches`: the claim's two concrete examples
(32-byte id after `0xff`; index 1 from `0xfc` + `[0x01, 0x00]`) plus a
short-form marker. -/
theorem C6_address_branches_witness :
    Address.process (255 :: List.replicate 32 0) =
      some (⟨"ff", some (bytesHex (List.replicate 32 0)), none, none⟩, []) ∧
    Address.process [252, 1, 0] = some (⟨"fc", none, some "0100", some 1⟩, []) ∧
    Address.process [5, 9] = some (⟨"05", none, some "05", some 5⟩, [9]) := by
  refine ⟨?_, ?_, ?_⟩
  · exact ((C6_address_branches 255 (List.replicate 32 0)).1 rfl (by decide)).trans
      (by decide)
  · exact ((C6_address_branches 252 [1, 0]).2.1 rfl (by decide)).trans (by decide)
  · exact ((C6_address_branches 5 [9]).2.2.2.2 (by decide) (by decide) (by decide)
      (by decide)).trans (by decide)

/-- **C7** (confirmed).  With a declared sub-type, presence byte `0x00`
yields the absent value and consumes nothing further; any non-zero presence
byte decodes the sub-type from the following bytes. -/
theorem C7_option_presence {α : Type} (sub : List Nat → Option (α × List Nat))
    (b : Nat) (rest : List Nat) :
    (b = 0 → Option.process true sub (b :: rest) = some (none, rest)) ∧
    (b ≠ 0 → Option.process true sub (b :: rest) =
      match sub rest with
      | none => none
      | some (v, s2) => some (some v, s2)) := by
  constructor
  · intro h
    subst h
    simp [Option.process, get_next_bytes]
  · intro h
    simp [Option.process, get_next_bytes, h]

/-- Witness for `C7_option_presence`: the claim's example — presence byte
`0x01` followed by the u8 payload `0x2a` yields present(42) — and the
absent case. -/
theorem C7_option_presence_witness :
    Option.process true U8.process [1, 42] = some (some 42, []) ∧
    Option.process true U8.process [0, 42] = some (none, [42]) := by
  constructor
  · exact ((C7_option_presence U8.process 1 [42]).2 (by decide)).trans (by decide)
  · exact (C7_option_presence U8.process 0 [42]).1 rfl

/-- **C8** (counterexample).  The UTF-8 fallback is the bare lowercase hex
string, not a `'0x'`-prefixed one: decoding `Vec<u8>` bytes `[0xff]`
(compact length prefix `0x04`) yields `"ff"`. -/
theorem C8_hex_fallback_refuted :
    Bytes.process [4, 255] = some (.hex "ff", []) ∧ "ff" ≠ "0xff" := by
  decide

/-- **C8** (amended).  `Bytes.process` reads a compact length, then exactly
that many raw bytes; valid UTF-8 yields the decoded text, anything else
falls back — successfully, not as an error — to the lowercase hex string of
the bytes WITHOUT a `'0x'` prefix. -/
theorem C8_bytes_decode (s : List Nat) (length : Nat) (s1 : List Nat)
    (h : CompactU32.process s = some (length, s1)) (hlen : length ≤ s1.length) :
    Bytes.process s =
      some (match utf8Decode (s1.take length) with
        | some cps => .text cps
        | none => .hex (bytesHex (s1.take length)), s1.drop length) := by
  cases hu : utf8Decode (s1.take length) <;>
    simp [Bytes.process, h, get_next_bytes, if_pos hlen, hu]

/-- Witness for `C8_bytes_decode`: a valid UTF-8 payload (`"hi"`) and the
invalid payload `[0xff]` taking the hex fallback. -/
theorem C8_bytes_decode_witness :
    Bytes.process [8, 104, 105] = some (.text [104, 105], []) ∧
    Bytes.process [4, 254] = some (.hex "fe", []) := by
  constructor
  · exact (C8_bytes_decode [8, 104, 105] 2 [104, 105] (by decide) (by decide)).trans
      (by decide)
  · exact (C8_bytes_decode [4, 254] 1 [254] (by decide) (by decide)).trans (by decide)

/-- **C10** (confirmed).  `Era.process` consumes exactly one byte and
returns `"00"` when that byte is zero; otherwise it consumes exactly two
bytes in total and returns their hex concatenation (failing only when no
second byte exists).  The mortal/immortal distinction is decided solely by
whether the first byte is zero. -/
theorem C10_era_branches (b : Nat) (rest : List Nat) (hb : b < 256) :
    (b = 0 → Era.process (b :: rest) = some ("00", rest)) ∧
    (b ≠ 0 → ∀ c rest2, rest = c :: rest2 →
      Era.process (b :: rest) = some (byteHex b ++ byteHex c, rest2)) ∧
    (b ≠ 0 → rest = [] → Era.process (b :: rest) = none) := by
  refine ⟨fun h => ?_, fun h c rest2 hr => ?_, fun h hr => ?_⟩
  · subst h
    simp [Era.process, get_next_bytes, bytesHex_singleton,
      show byteHex 0 = "00" from by decide]
  · subst hr
    simp [Era.process, get_next_bytes, bytesHex_singleton,
      byteHex_ne_doublezero b hb h]
  · subst hr
    simp [Era.process, get_next_bytes, bytesHex_singleton,
      byteHex_ne_doublezero b hb h]

/-- Witness for `C10_era_branches`: the immortal byte, a mortal two-byte
era, and the underrun on a missing second byte. -/
theorem C10_era_branches_witness :
    Era.process [0, 7] = some ("00", [7]) ∧
    Era.process [21, 3] = some ("1503", []) ∧
    Era.process [21] = none := by
  refine ⟨?_, ?_, ?_⟩
  · exact (C10_era_branches 0 [7] (by decide)).1 rfl
  · exact (((C10_era_branches 21 [3] (by decide)).2.1 (by decide)) 3 [] rfl).trans
      (by decide)
  · exact (C10_era_branches 21 [] (by decide)).2.2 (by decide) rfl

theorem EventRecord.afterPhase_spec
    (lookup : String → Option (List (List Nat → Option (List Nat))))
    (mdVersion : Option Nat) (phase : Nat) (idx : Option Nat) (s : List Nat)
    (r : EventRecordResult) (rem : List Nat)
    (h : EventRecord.afterPhase lookup mdVersion phase idx s = some (r, rem)) :
    r.phase = phase ∧ r.extrinsic_idx = idx ∧
    (versionGate mdVersion = false → r.topics = []) ∧
    (versionGate mdVersion = true → ∃ s2,
      VecHash.process s2 = some (r.topics, rem)) := by
  unfold EventRecord.afterPhase at h
  split at h
  · exact absurd h (by simp)
  next tb s1 hg =>
    split at h
    · exact absurd h (by simp)
    next args hl =>
      split at h
      · exact absurd h (by simp)
      next s2 hrun =>
        split at h
        next hgate =>
          split at h
          · exact absurd h (by simp)
          next topics s3 hv =>
            cases h
            refine ⟨rfl, rfl, fun hf => ?_, fun _ => ⟨s2, hv⟩⟩
            rw [hgate] at hf
            cases hf
        next hgate =>
          cases h
          refine ⟨rfl, rfl, fun _ => rfl, fun ht => ?_⟩
          exact absurd ht hgate

/-- **C9** (confirmed).  `EventRecord.process` reads a 1-byte phase and
decodes a 4-byte little-endian extrinsic index exactly when that byte is 0
(any other phase consumes nothing extra and leaves the index null); after
the 2-byte event type and the metadata-resolved arguments, a trailing
`Vec<Hash>` becomes `topics` exactly when the metadata version indicator is
present and at least 5, otherwise `topics` is empty. -/
theorem C9_eventrecord
    (lookup : String → Option (List (List Nat → Option (List Nat))))
    (mdVersion : Option Nat) (p : Nat) (rest : List Nat) :
    (p = 0 → ∀ b0 b1 b2 b3 rest4, rest = b0 :: b1 :: b2 :: b3 :: rest4 →
      EventRecord.process lookup mdVersion (p :: rest) =
        EventRecord.afterPhase lookup mdVersion p
          (some (fromLEBytes [b0, b1, b2, b3])) rest4) ∧
    (p ≠ 0 → EventRecord.process lookup mdVersion (p :: rest) =
      EventRecord.afterPhase lookup mdVersion p none rest) ∧
    (∀ r rem, EventRecord.process lookup mdVersion (p :: rest) = some (r, rem) →
      r.phase = p ∧ (r.extrinsic_idx.isSome ↔ p = 0) ∧
      (versionGate mdVersion = false → r.topics = []) ∧
      (versionGate mdVersion = true → ∃ s2,
        VecHash.process s2 = some (r.topics, rem))) := by
  refine ⟨?_, ?_, ?_⟩
  · rintro rfl b0 b1 b2 b3 rest4 rfl
    simp [EventRecord.process, get_next_bytes, U32.process]
  · intro hp
    simp [EventRecord.process, get_next_bytes, hp]
  · intro r rem h
    rw [EventRecord.process] at h
    have h1 : get_next_bytes 1 (p :: rest) = some ([p], rest) := by
      simp [get_next_bytes]
    rw [h1] at h
    simp only [List.headI] at h
    by_cases hp : p = 0
    · subst hp
      rw [if_pos rfl] at h
      rcases hU : U32.process rest with - | ⟨i, s2⟩
      · rw [hU] at h
        cases h
      · rw [hU] at h
        obtain ⟨hph, hidx, ht0, ht1⟩ := EventRecord.afterPhase_spec _ _ _ _ _ _ _ h
        exact ⟨hph, by simp [hidx], ht0, ht1⟩
    · rw [if_neg hp] at h
      obtain ⟨hph, hidx, ht0, ht1⟩ := EventRecord.afterPhase_spec _ _ _ _ _ _ _ h
      exact ⟨hph, by simp [hidx, hp], ht0, ht1⟩

/-- Witness for `C9_eventrecord`: the claim's example — phase byte `0x00`
followed by `0x05000000` yields extrinsic index 5 — next to a non-zero
phase consuming nothing, and the metadata-version-4 record with empty
topics despite trailing bytes. -/
theorem C9_eventrecord_witness :
    EventRecord.process (fun _ => some []) (some 4)
        [0, 5, 0, 0, 0, 0xAA, 0xBB, 9, 9, 9] =
      EventRecord.afterPhase (fun _ => some []) (some 4) 0 (some 5)
        [0xAA, 0xBB, 9, 9, 9] ∧
    EventRecord.process (fun _ => some []) (some 4) [7, 0xAA, 0xBB] =
      EventRecord.afterPhase (fun _ => some []) (some 4) 7 none [0xAA, 0xBB] ∧
    ((⟨0, some 5, "aabb", []⟩ : EventRecordResult).extrinsic_idx.isSome ↔
      (0 : Nat) = 0) ∧
    (⟨0, some 5, "aabb", []⟩ : EventRecordResult).topics = [] := by
  refine ⟨?_, ?_, ?_, ?_⟩
  · have h := (C9_eventrecord (fun _ => some []) (some 4) 0
      [5, 0, 0, 0, 0xAA, 0xBB, 9, 9, 9]).1 rfl 5 0 0 0 [0xAA, 0xBB, 9, 9, 9] rfl
    simpa [show fromLEBytes [5, 0, 0, 0] = 5 from by decide] using h
  · exact (C9_eventrecord (fun _ => some []) (some 4) 7 [0xAA, 0xBB]).2.1
      (by decide)
  · exact ((C9_eventrecord (fun _ => some []) (some 4) 0
      [5, 0, 0, 0, 0xAA, 0xBB, 9, 9, 9]).2.2 ⟨0, some 5, "aabb", []⟩ [9, 9, 9]
      (by decide)).2.1
  · exact ((C9_eventrecord (fun _ => some []) (some 4) 0
      [5, 0, 0, 0, 0xAA, 0xBB, 9, 9, 9]).2.2 ⟨0, some 5, "aabb", []⟩ [9, 9, 9]
      (by decide)).2.2.1 rfl

theorem generate_hash_err (ct : Bool) (elen : Option Nat) (data : List Nat)
    (e : ExErr) (h : ExtrinsicsDecoder.generate_hash ct elen data = .error e) :
    e = .valueOutOfRange := by
  unfold ExtrinsicsDecoder.generate_hash at h
  split at h
  · split at h
    · exact absurd h (by simp)
    · split at h
      · exact absurd h (by simp)
      · cases h
        rfl
  · exact absurd h (by simp)

theorem generate_hash_true_isSome (elen : Option Nat) (data : List Nat)
    (h : Option (List Nat))
    (hh : ExtrinsicsDecoder.generate_hash true elen data = .ok h) :
    h.isSome := by
  unfold ExtrinsicsDecoder.generate_hash at hh
  rw [if_pos rfl] at hh
  split at hh
  · cases hh
    rfl
  · split at hh
    · cases hh
      rfl
    · exact absurd hh (by simp)

theorem finishBranch_no_unsup (dp : String → SB → Option SB)
    (elen : Option Nat) (vb : Nat) (ct : Bool) (addr : Option AddressResult)
    (sig : Option String) (nonce : Option Nat) (era : Option String)
    (tip : Option Nat) (hash : Option (List Nat)) (s : SB) (v : Nat) :
    finishBranch dp elen vb ct addr sig nonce era tip hash s ≠
      .error (.unsupportedVersion v) := by
  unfold finishBranch
  split
  · simp
  · split <;> simp

theorem finishBranch_ok (dp : String → SB → Option SB) (elen : Option Nat)
    (vb : Nat) (ct : Bool) (addr : Option AddressResult) (sig : Option String)
    (nonce : Option Nat) (era : Option String) (tip : Option Nat)
    (hash : Option (List Nat)) (s : SB) (r : ExtrinsicResult)
    (h : finishBranch dp elen vb ct addr sig nonce era tip hash s = .ok r) :
    r.extrinsic_length = elen ∧ r.version_info = vb ∧
    r.contains_transaction = ct ∧
    r.account_length = addr.map (fun a => a.account_length) ∧
    r.account_id = (addr.map (fun a => a.account_id)).getD none ∧
    r.account_index = (addr.map (fun a => a.account_index)).getD none ∧
    r.account_idx = (addr.map (fun a => a.account_idx)).getD none ∧
    r.signature = sig ∧ r.nonce = nonce ∧ r.era = era ∧ r.tip = tip ∧
    r.extrinsic_hash = hash := by
  unfold finishBranch at h
  split at h
  · exact absurd h (by simp)
  · split at h
    · exact absurd h (by simp)
    · cases h
      simp

theorem branchV1_no_unsup (dp : String → SB → Option SB) (elen : Option Nat)
    (vb : Nat) (ct : Bool) (s : SB) (v : Nat) :
    branchV1 dp elen vb ct s ≠ .error (.unsupportedVersion v) := by
  unfold branchV1
  split
  · split
    · simp
    · split
      next e hgen =>
        intro hc
        injection hc with hc2
        rw [generate_hash_err _ _ _ _ hgen] at hc2
        exact ExErr.noConfusion hc2
      next hv hgen => exact finishBranch_no_unsup _ _ _ _ _ _ _ _ _ _ _ _
  · exact finishBranch_no_unsup _ _ _ _ _ _ _ _ _ _ _ _

theorem branchV23_no_unsup (dp : String → SB → Option SB) (elen : Option Nat)
    (vb : Nat) (ct : Bool) (s : SB) (v : Nat) :
    branchV23 dp elen vb ct s ≠ .error (.unsupportedVersion v) := by
  unfold branchV23
  split
  · split
    · simp
    · split
      next e hgen =>
        intro hc
        injection hc with hc2
        rw [generate_hash_err _ _ _ _ hgen] at hc2
        exact ExErr.noConfusion hc2
      next hv hgen => exact finishBranch_no_unsup _ _ _ _ _ _ _ _ _ _ _ _
  · exact finishBranch_no_unsup _ _ _ _ _ _ _ _ _ _ _ _

theorem branchV1_fields (dp : String → SB → Option SB) (elen : Option Nat)
    (vb : Nat) (ct : Bool) (s : SB) (r : ExtrinsicResult)
    (h : branchV1 dp elen vb ct s = .ok r) :
    r.contains_transaction = ct ∧
    (ct = true → r.account_length.isSome ∧ r.signature.isSome ∧
      r.nonce.isSome ∧ r.era.isSome ∧ r.extrinsic_hash.isSome) ∧
    (ct = false → r.account_length = none ∧ r.account_id = none ∧
      r.account_index = none ∧ r.account_idx = none ∧ r.signature = none ∧
      r.nonce = none ∧ r.era = none ∧ r.tip = none ∧
      r.extrinsic_hash = none) := by
  unfold branchV1 at h
  split at h
  next hct =>
    split at h
    · exact absurd h (by simp)
    next sf s1 hsf =>
      split at h
      · exact absurd h (by simp)
      next hv hgen =>
        obtain ⟨-, -, hcts, hal, hai, hax, haxx, hsig, hn, her, -, hh⟩ :=
          finishBranch_ok _ _ _ _ _ _ _ _ _ _ _ _ h
        rw [hct] at hgen
        refine ⟨hcts, fun _ => ?_, fun hcf => ?_⟩
        · exact ⟨by simp [hal], by simp [hsig], by simp [hn], by simp [her],
            by rw [hh]; exact generate_hash_true_isSome _ _ _ hgen⟩
        · rw [hct] at hcf
          cases hcf
  next hct =>
    obtain ⟨-, -, hcts, hal, hai, hax, haxx, hsig, hn, her, ht, hh⟩ :=
      finishBranch_ok _ _ _ _ _ _ _ _ _ _ _ _ h
    refine ⟨hcts, fun hcf => absurd hcf hct, fun _ => ?_⟩
    simp at hal hai hax haxx
    exact ⟨hal, hai, hax, haxx, hsig, hn, her, ht, hh⟩

theorem branchV23_fields (dp : String → SB → Option SB) (elen : Option Nat)
    (vb : Nat) (ct : Bool) (s : SB) (r : ExtrinsicResult)
    (h : branchV23 dp elen vb ct s = .ok r) :
    r.contains_transaction = ct ∧
    (ct = true → r.account_length.isSome ∧ r.signature.isSome ∧
      r.nonce.isSome ∧ r.era.isSome ∧ r.extrinsic_hash.isSome) ∧
    (ct = false → r.account_length = none ∧ r.account_id = none ∧
      r.account_index = none ∧ r.account_idx = none ∧ r.signature = none ∧
      r.nonce = none ∧ r.era = none ∧ r.tip = none ∧
      r.extrinsic_hash = none) := by
  unfold branchV23 at h
  split at h
  next hct =>
    split at h
    · exact absurd h (by simp)
    next sf s1 hsf =>
      split at h
      · exact absurd h (by simp)
      next hv hgen =>
        obtain ⟨-, -, hcts, hal, hai, hax, haxx, hsig, hn, her, -, hh⟩ :=
          finishBranch_ok _ _ _ _ _ _ _ _ _ _ _ _ h
        rw [hct] at hgen
        refine ⟨hcts, fun _ => ?_, fun hcf => ?_⟩
        · exact ⟨by simp [hal], by simp [hsig], by simp [hn], by simp [her],
            by rw [hh]; exact generate_hash_true_isSome _ _ _ hgen⟩
        · rw [hct] at hcf
          cases hcf
  next hct =>
    obtain ⟨-, -, hcts, hal, hai, hax, haxx, hsig, hn, her, ht, hh⟩ :=
      finishBranch_ok _ _ _ _ _ _ _ _ _ _ _ _ h
    refine ⟨hcts, fun hcf => absurd hcf hct, fun _ => ?_⟩
    simp at hal hai hax haxx
    exact ⟨hal, hai, hax, haxx, hsig, hn, her, ht, hh⟩

/-- **C3** (confirmed).  Given that the cursor reaches the version byte
`vb`, the decode fails with `UnsupportedExtrinsicVersion` exactly when `vb`
is none of `0x01/0x81`, `0x02/0x82`, `0x03/0x83`; and on success the
signature fields (address, signature, era, nonce, extrinsic hash) are
present exactly when bit `0x80` of `vb` is set, an unsigned extrinsic
carrying none of them.  (The source tests `int(version_info, 16) >= 80`
with a decimal 80; on the six accepted version bytes this coincides with
bit `0x80`.) -/
theorem C3_version_dispatch (dp : String → SB → Option SB) (s0 : SB)
    (elen : Option Nat) (vb : Nat) (s2 : SB)
    (h : readToVersion s0 = some (elen, vb, s2)) :
    (ExtrinsicsDecoder.process dp s0 = .error (.unsupportedVersion vb) ↔
      ¬(vb = 0x01 ∨ vb = 0x81 ∨ vb = 0x02 ∨ vb = 0x82 ∨ vb = 0x03 ∨
        vb = 0x83)) ∧
    (∀ r, ExtrinsicsDecoder.process dp s0 = .ok r →
      ((r.account_length.isSome ∧ r.signature.isSome ∧ r.era.isSome ∧
        r.nonce.isSome ∧ r.extrinsic_hash.isSome) ↔
        Nat.testBit vb 7 = true) ∧
      (Nat.testBit vb 7 = false → r.account_length = none ∧
        r.account_id = none ∧ r.account_index = none ∧ r.account_idx = none ∧
        r.signature = none ∧ r.extrinsic_hash = none)) := by
  have hp : ExtrinsicsDecoder.process dp s0 =
      (if vb = 0x01 ∨ vb = 0x81 then branchV1 dp elen vb (decide (80 ≤ vb)) s2
       else if vb = 0x02 ∨ vb = 0x82 then
         branchV23 dp elen vb (decide (80 ≤ vb)) s2
       else if vb = 0x03 ∨ vb = 0x83 then
         branchV23 dp elen vb (decide (80 ≤ vb)) s2
       else .error (.unsupportedVersion vb)) := by
    unfold ExtrinsicsDecoder.process
    rw [h]
  rw [hp]
  by_cases h1 : vb = 0x01 ∨ vb = 0x81
  · rw [if_pos h1]
    refine ⟨iff_of_false (branchV1_no_unsup _ _ _ _ _ _) (by tauto), ?_⟩
    intro r hr
    rcases h1 with rfl | rfl
    · obtain ⟨-, -, hnone⟩ := branchV1_fields _ _ _ _ _ _ hr
      obtain ⟨hal, hai, hax, haxx, hsig, hn, her, -, hh⟩ := hnone rfl
      exact ⟨iff_of_false (by simp [hal]) (by decide),
        fun _ => ⟨hal, hai, hax, haxx, hsig, hh⟩⟩
    · obtain ⟨-, hsome, -⟩ := branchV1_fields _ _ _ _ _ _ hr
      obtain ⟨hal, hsig, hn, her, hh⟩ := hsome rfl
      exact ⟨iff_of_true ⟨hal, hsig, her, hn, hh⟩ (by decide),
        fun htb => absurd htb (by decide)⟩
  · rw [if_neg h1]
    by_cases h2 : vb = 0x02 ∨ vb = 0x82
    · rw [if_pos h2]
      refine ⟨iff_of_false (branchV23_no_unsup _ _ _ _ _ _) (by tauto), ?_⟩
      intro r hr
      rcases h2 with rfl | rfl
      · obtain ⟨-, -, hnone⟩ := branchV23_fields _ _ _ _ _ _ hr
        obtain ⟨hal, hai, hax, haxx, hsig, hn, her, -, hh⟩ := hnone rfl
        exact ⟨iff_of_false (by simp [hal]) (by decide),
          fun _ => ⟨hal, hai, hax, haxx, hsig, hh⟩⟩
      · obtain ⟨-, hsome, -⟩ := branchV23_fields _ _ _ _ _ _ hr
        obtain ⟨hal, hsig, hn, her, hh⟩ := hsome rfl
        exact ⟨iff_of_true ⟨hal, hsig, her, hn, hh⟩ (by decide),
          fun htb => absurd htb (by decide)⟩
    · rw [if_neg h2]
      by_cases h3 : vb = 0x03 ∨ vb = 0x83
      · rw [if_pos h3]
        refine ⟨iff_of_false (branchV23_no_unsup _ _ _ _ _ _)
          (by tauto), ?_⟩
        intro r hr
        rcases h3 with rfl | rfl
        · obtain ⟨-, -, hnone⟩ := branchV23_fields _ _ _ _ _ _ hr
          obtain ⟨hal, hai, hax, haxx, hsig, hn, her, -, hh⟩ := hnone rfl
          exact ⟨iff_of_false (by simp [hal]) (by decide),
            fun _ => ⟨hal, hai, hax, haxx, hsig, hh⟩⟩
        · obtain ⟨-, hsome, -⟩ := branchV23_fields _ _ _ _ _ _ hr
          obtain ⟨hal, hsig, hn, her, hh⟩ := hsome rfl
          exact ⟨iff_of_true ⟨hal, hsig, her, hn, hh⟩ (by decide),
            fun htb => absurd htb (by decide)⟩
      · rw [if_neg h3]
        refine ⟨iff_of_true rfl (by tauto), ?_⟩
        intro r hr
        exact absurd hr (by simp)

/-- Witness for `C3_version_dispatch`: the unrecognized version byte `0x09`
fails with the unsupported-version error, and a concrete v1 signed
extrinsic decodes with all signature fields present. -/
theorem C3_version_dispatch_witness :
    ExtrinsicsDecoder.process (fun _ s => some s) ⟨[4, 9], 0⟩ =
      .error (.unsupportedVersion 9) ∧
    ∀ r, ExtrinsicsDecoder.process (fun _ s => some s) ⟨c4input, 0⟩ = .ok r →
      (r.account_length.isSome ∧ r.signature.isSome ∧ r.era.isSome ∧
        r.nonce.isSome ∧ r.extrinsic_hash.isSome) := by
  constructor
  · exact (C3_version_dispatch (fun _ s => some s) ⟨[4, 9], 0⟩ (some 1) 9
      ⟨[4, 9], 2⟩ (by decide)).1.mpr (by decide)
  · intro r hr
    exact ((C3_version_dispatch (fun _ s => some s) ⟨c4input, 0⟩ (some 70) 0x81
      ⟨c4input, 3⟩ (by decide)).2 r hr).1.mpr (by decide)

/-- **C4** (counterexample).  On a concrete length-prefixed v1 signed
extrinsic the decoder keeps the length prefix (`extrinsic_length = 70`),
yet hashes the ENTIRE raw buffer `data.data` — length prefix included —
not the remaining bytes after the prefix as the claim states. -/
theorem C4_hash_span_refuted :
    (ExtrinsicsDecoder.process (fun _ s => some s) ⟨c4input, 0⟩).toOption.map
        (fun r => (r.extrinsic_length, r.extrinsic_hash)) =
      some (some 70, some c4input) ∧
    c4input ≠ c4input.drop 2 := by
  decide

/-- **C4** (amended).  The length fallback behaves as claimed: a leading
compact integer that does not match the remaining byte count is discarded
and the cursor rewound to offset 0 (and kept when it matches).  The hash
rule, corrected: with a kept (non-zero) length prefix the 256-bit digest
pre-image is the ENTIRE raw buffer including the length prefix; on the
legacy lengthless path it is the total byte count, re-encoded as a compact
integer, prepended to the raw payload. -/
theorem C4_length_fallback_and_hash_pre :
    (∀ s0 n s1, n ≠ (SB.remaining s1).length →
      lengthFallback s0 n s1 = (none, ⟨s0.data, 0⟩)) ∧
    (∀ s0 n s1, n = (SB.remaining s1).length →
      lengthFallback s0 n s1 = (some n, s1)) ∧
    (∀ (data : List Nat) n, n ≠ 0 →
      ExtrinsicsDecoder.generate_hash true (some n) data = .ok (some data)) ∧
    (∀ (data lenBytes : List Nat), CompactU32.encode data.length = some lenBytes →
      ExtrinsicsDecoder.generate_hash true none data =
        .ok (some (lenBytes ++ data))) := by
  refine ⟨?_, ?_, ?_, ?_⟩
  · intro s0 n s1 h
    simp [lengthFallback, h]
  · intro s0 n s1 h
    simp [lengthFallback, h]
  · intro data n h
    simp [ExtrinsicsDecoder.generate_hash, h]
  · intro data lenBytes h
    simp [ExtrinsicsDecoder.generate_hash, h]

/-- Witness for `C4_length_fallback_and_hash_pre`: a mismatching prefix is
discarded with the cursor rewound, a matching one is kept, a kept prefix
hashes the whole buffer, and the legacy path prepends the re-encoded
length (`CompactU32.encode 1 = some [4]`). -/
theorem C4_length_fallback_and_hash_pre_witness :
    lengthFallback ⟨[0, 1], 0⟩ 7 ⟨[0, 1], 1⟩ = (none, ⟨[0, 1], 0⟩) ∧
    lengthFallback ⟨[0, 1], 0⟩ 1 ⟨[0, 1], 1⟩ = (some 1, ⟨[0, 1], 1⟩) ∧
    ExtrinsicsDecoder.generate_hash true (some 3) [1, 2, 3] =
      .ok (some [1, 2, 3]) ∧
    ExtrinsicsDecoder.generate_hash true none [9] = .ok (some [4, 9]) := by
  refine ⟨?_, ?_, ?_, ?_⟩
  · exact C4_length_fallback_and_hash_pre.1 ⟨[0, 1], 0⟩ 7 ⟨[0, 1], 1⟩ (by decide)
  · exact C4_length_fallback_and_hash_pre.2.1 ⟨[0, 1], 0⟩ 1 ⟨[0, 1], 1⟩
      (by decide)
  · exact C4_length_fallback_and_hash_pre.2.2.1 [1, 2, 3] 3 (by decide)
  · exact C4_length_fallback_and_hash_pre.2.2.2 [9] [4] (by decide)

end Scale
